import Mathlib

/-!
Verification of the MotionSignal numeric core.

Shallow embedding of the feature-extraction engine and the refinement
pipeline of `src/services/dsp.ts` (with the legacy variant in
`src/unnamed/part_001` where a claim depends on it), together with the
channel-visibility resolver of the application shell.  JavaScript numbers
are modelled as real numbers; `Math.sqrt`/`Math.pow(x, 0.5)` becomes
`Real.sqrt`, `Math.floor`/`Math.ceil` become `Int.floor`/`Int.ceil`, and
the JS remainder `x % 1` is modelled by `jsMod1` below.
-/

noncomputable section

/-- `AnalysisConfig` from `src/types.ts`: output frame rate, tempo and
time-signature numerator. -/
structure AnalysisConfig where
  fps : ℝ
  bpm : ℝ
  timeSignature : ℝ

/-- A decoded `AudioBuffer` as the analysis code consumes it: up to two
dense channels of samples, a channel count and a sample rate.
`chan1` is only ever read when `numberOfChannels > 1`. -/
structure AudioBuffer where
  chan0 : List ℝ
  chan1 : List ℝ
  numberOfChannels : ℕ
  sampleRate : ℝ

/-- `AudioBuffer.duration` in the Web Audio API: frame count divided by
the sample rate. -/
def AudioBuffer.duration (b : AudioBuffer) : ℝ :=
  (b.chan0.length : ℝ) / b.sampleRate

/-- `RawChannelData` from `src/types.ts` (the `type` union is kept as a
plain string, mirroring the TS string literals). -/
structure RawChannelData where
  id : String
  name : String
  sourceId : String
  values : List ℝ
  type : String

/-- `RefinementSettings` from `src/types.ts` (the variant that includes
the `quantize` subdivision field; `0` means off). -/
structure RefinementSettings where
  gain : ℝ
  offset : ℝ
  smooth : ℝ
  gate : ℝ
  clip : Bool
  invert : Bool
  quantize : ℕ

/-- `ChannelState` from `src/types.ts`. -/
structure ChannelState where
  id : String
  settings : RefinementSettings
  processedValues : List ℝ
  visible : Bool
  mute : Bool
  solo : Bool
  color : String

/-! ## Refinement pipeline (`refineChannel`, src/services/dsp.ts lines 135-172) -/

/-- `alpha = 1 - Math.pow(settings.smooth, 0.5) * 0.95` from
`refineChannel`.  `Math.pow(x, 0.5)` is the square root. -/
def alphaOf (smooth : ℝ) : ℝ := 1 - Real.sqrt smooth * 0.95

/-- One iteration of the `refineChannel` loop body: given the running
`smoothed` state and the raw sample `v`, returns the new `smoothed`
state and the value written to `result[i]`.  Mirrors lines 147-169 of
`src/services/dsp.ts`: gate, then gain/offset, then one-pole smoothing,
then clip (full clamp when `settings.clip`, otherwise only the lower
bound), then invert. -/
def refineStep (settings : RefinementSettings) (alpha : ℝ) (smoothed v : ℝ) : ℝ × ℝ :=
  let val := if v < settings.gate then 0 else v
  let val := (val + settings.offset) * settings.gain
  let smoothed := smoothed * (1 - alpha) + val * alpha
  let final := smoothed
  let final := if settings.clip then max 0 (min 1 final) else max 0 final
  let final := if settings.invert then 1 - final else final
  (smoothed, final)

/-- The `for` loop of `refineChannel`, threading the `smoothed` state
through the raw samples in order. -/
def refineLoop (settings : RefinementSettings) (alpha : ℝ) : ℝ → List ℝ → List ℝ
  | _, [] => []
  | smoothed, v :: rest =>
    (refineStep settings alpha smoothed v).2 ::
      refineLoop settings alpha (refineStep settings alpha smoothed v).1 rest

/-- `refineChannel` from `src/services/dsp.ts`: the smoothing state
starts at `0` and `alpha` is derived from `settings.smooth`.  The `bpm`
and `fps` parameters are part of the signature but the body never uses
them (the legacy variant in `src/unnamed/part_001` derives a dead
`quantizeFrames` local from them; its quantize block only computes a
`step` local that is never read, so the produced samples are the
same). -/
def refineChannel (raw : List ℝ) (settings : RefinementSettings)
    (_bpm _fps : ℝ) : List ℝ :=
  refineLoop settings (alphaOf settings.smooth) 0 raw

/-- The per-sample result of the loop when smoothing is inactive
(`alpha = 1`): gate, gain/offset, clip, invert. -/
def refinePoint (settings : RefinementSettings) (v : ℝ) : ℝ :=
  let val := if v < settings.gate then 0 else v
  let val := (val + settings.offset) * settings.gain
  let final := if settings.clip then max 0 (min 1 val) else max 0 val
  if settings.invert then 1 - final else final

lemma refineLoop_length (settings : RefinementSettings) (alpha : ℝ) :
    ∀ (raw : List ℝ) (st : ℝ), (refineLoop settings alpha st raw).length = raw.length := by
  intro raw
  induction raw with
  | nil => intro st; rfl
  | cons v rest ih => intro st; simp [refineLoop, ih]

lemma alphaOf_zero : alphaOf 0 = 1 := by
  simp [alphaOf, Real.sqrt_zero]

lemma refineLoop_alpha_one (settings : RefinementSettings) :
    ∀ (raw : List ℝ) (st : ℝ),
      refineLoop settings 1 st raw = raw.map (refinePoint settings) := by
  intro raw
  induction raw with
  | nil => intro st; rfl
  | cons v rest ih =>
    intro st
    have hstep : refineStep settings 1 st v =
        (((if v < settings.gate then 0 else v) + settings.offset) * settings.gain,
          refinePoint settings v) := by
      simp [refineStep, refinePoint]
    simp only [refineLoop, hstep, List.map]
    exact congrArg _ (ih _)

/-- C7: the sequence returned by `refineChannel` always has exactly the
length of its input, for every settings record and every `bpm`/`fps`
(the cached `processedValues` of a channel is always such an output, so
it matches the raw channel's length). -/
theorem refineChannel_length (raw : List ℝ) (settings : RefinementSettings)
    (bpm fps : ℝ) :
    (refineChannel raw settings bpm fps).length = raw.length :=
  refineLoop_length settings (alphaOf settings.smooth) raw 0

/-- C10: the output of `refineChannel` does not depend on the `bpm` and
`fps` arguments — any two choices produce identical output (the body of
the function in `src/services/dsp.ts` never reads them). -/
theorem refineChannel_ignores_bpm_fps (raw : List ℝ)
    (settings : RefinementSettings) (bpm₁ fps₁ bpm₂ fps₂ : ℝ) :
    refineChannel raw settings bpm₁ fps₁ = refineChannel raw settings bpm₂ fps₂ :=
  rfl

lemma refineLoop_quantize (settings : RefinementSettings) (q : ℕ) (alpha : ℝ) :
    ∀ (raw : List ℝ) (st : ℝ),
      refineLoop { settings with quantize := q } alpha st raw =
        refineLoop settings alpha st raw := by
  intro raw
  induction raw with
  | nil => intro st; rfl
  | cons v rest ih =>
    intro st
    have hstep : refineStep { settings with quantize := q } alpha st v =
        refineStep settings alpha st v := rfl
    simp only [refineLoop, hstep]
    exact congrArg _ (ih _)

/-- C2: for quantize settings 4, 8 or 16 (and positive bpm and fps) the
output of `refineChannel` is identical to the output with `quantize = 0`:
no stage of the loop ever reads the quantize field (the legacy variant
only computes a dead step boundary), so sample-and-hold quantization is
effectively unimplemented. -/
theorem refineChannel_quantize_noop (raw : List ℝ) (settings : RefinementSettings)
    (bpm fps : ℝ)
    (hq : settings.quantize = 4 ∨ settings.quantize = 8 ∨ settings.quantize = 16)
    (hbpm : 0 < bpm) (hfps : 0 < fps) :
    refineChannel raw settings bpm fps =
      refineChannel raw { settings with quantize := 0 } bpm fps :=
  (refineLoop_quantize settings 0 (alphaOf settings.smooth) raw 0).symm

/-- C2 witness: a concrete settings record with `quantize = 8` produces
the same output as the same record with `quantize = 0`. -/
theorem refineChannel_quantize_noop_witness :
    ((⟨1, 0, 0, 0, true, false, 8⟩ : RefinementSettings).quantize = 4 ∨
      (⟨1, 0, 0, 0, true, false, 8⟩ : RefinementSettings).quantize = 8 ∨
      (⟨1, 0, 0, 0, true, false, 8⟩ : RefinementSettings).quantize = 16) ∧
    (0 : ℝ) < 120 ∧ (0 : ℝ) < 30 ∧
    refineChannel [(1 : ℝ) / 2] ⟨1, 0, 0, 0, true, false, 8⟩ 120 30 =
      refineChannel [(1 : ℝ) / 2]
        { (⟨1, 0, 0, 0, true, false, 8⟩ : RefinementSettings) with quantize := 0 } 120 30 :=
  ⟨Or.inr (Or.inl rfl), by norm_num, by norm_num,
    refineChannel_quantize_noop [(1 : ℝ) / 2] ⟨1, 0, 0, 0, true, false, 8⟩ 120 30
      (Or.inr (Or.inl rfl)) (by norm_num) (by norm_num)⟩

/-! ## C5: the pipeline with smoothing off, clip on, invert off -/

/-- C5: with `smooth = 0`, `clip = true`, `invert = false`,
`quantize = 0`, the i-th output equals
`clamp((g + offset) * gain, 0, 1)` where `g` is the input with the gate
applied (zeroed when strictly below `gate`); instantiated at the
identity settings this gives `clamp(raw[i], 0, 1)`. -/
theorem refineChannel_no_smooth_formula (raw : List ℝ)
    (settings : RefinementSettings) (bpm fps : ℝ)
    (hsm : settings.smooth = 0) (hclip : settings.clip = true)
    (hinv : settings.invert = false) (hq : settings.quantize = 0) :
    refineChannel raw settings bpm fps =
      raw.map (fun v =>
        max 0 (min 1 (((if v < settings.gate then 0 else v) + settings.offset)
          * settings.gain))) ∧
    (settings.gain = 1 → settings.offset = 0 → settings.gate = 0 →
      refineChannel raw settings bpm fps = raw.map fun v => max 0 (min 1 v)) := by
  have hfun : refinePoint settings = fun v =>
      max 0 (min 1 (((if v < settings.gate then 0 else v) + settings.offset)
        * settings.gain)) := by
    funext v
    simp [refinePoint, hclip, hinv]
  have hmain : refineChannel raw settings bpm fps =
      raw.map (fun v =>
        max 0 (min 1 (((if v < settings.gate then 0 else v) + settings.offset)
          * settings.gain))) := by
    show refineLoop settings (alphaOf settings.smooth) 0 raw = _
    rw [hsm, alphaOf_zero, refineLoop_alpha_one, hfun]
  refine ⟨hmain, fun hg ho hgate => ?_⟩
  rw [hmain]
  refine List.map_congr_left fun v _ => ?_
  rw [hg, ho, hgate]
  by_cases hv : v < 0
  · have h1 : v ≤ 1 := by linarith
    simp only [hv, if_true]
    rw [min_eq_right h1, max_eq_left hv.le]
    norm_num
  · simp [hv]

/-- C5 witness: the spec's first example scenario, `raw = [0.2, 0.8, 0.5]`
with `gain = 2` and otherwise-default settings. -/
theorem refineChannel_no_smooth_formula_witness :
    (⟨2, 0, 0, 0, true, false, 0⟩ : RefinementSettings).smooth = 0 ∧
    (⟨2, 0, 0, 0, true, false, 0⟩ : RefinementSettings).clip = true ∧
    (⟨2, 0, 0, 0, true, false, 0⟩ : RefinementSettings).invert = false ∧
    (⟨2, 0, 0, 0, true, false, 0⟩ : RefinementSettings).quantize = 0 ∧
    refineChannel [(0.2 : ℝ), 0.8, 0.5] ⟨2, 0, 0, 0, true, false, 0⟩ 120 30 =
      [(0.2 : ℝ), 0.8, 0.5].map (fun v =>
        max 0 (min 1 (((if v < (⟨2, 0, 0, 0, true, false, 0⟩ : RefinementSettings).gate
          then 0 else v) + (⟨2, 0, 0, 0, true, false, 0⟩ : RefinementSettings).offset)
            * (⟨2, 0, 0, 0, true, false, 0⟩ : RefinementSettings).gain))) :=
  ⟨rfl, rfl, rfl, rfl,
    (refineChannel_no_smooth_formula [(0.2 : ℝ), 0.8, 0.5]
      ⟨2, 0, 0, 0, true, false, 0⟩ 120 30 rfl rfl rfl rfl).1⟩

/-! ## C6: invert involution under clip, and clip bounds -/

/-- The identity settings with `invert` switched on
(`gain 1, offset 0, smooth 0, gate 0, clip true, invert true, quantize 0`). -/
def invertIdentity : RefinementSettings := ⟨1, 0, 0, 0, true, true, 0⟩

lemma clamp_gate_zero (v : ℝ) :
    max 0 (min 1 (if v < 0 then 0 else v)) = max 0 (min 1 v) := by
  by_cases hv : v < 0
  · have h1 : v ≤ 1 := by linarith
    simp only [hv, if_true]
    rw [min_eq_right h1, max_eq_left hv.le]
    norm_num
  · simp [hv]

lemma invertIdentity_point (v : ℝ) :
    refinePoint invertIdentity v = 1 - max 0 (min 1 v) := by
  have h : refinePoint invertIdentity v =
      1 - max 0 (min 1 (((if v < 0 then 0 else v) + 0) * 1)) := rfl
  rw [h]
  rw [show ((if v < 0 then 0 else v) + 0) * 1 = (if v < 0 then 0 else v) by ring]
  rw [clamp_gate_zero]

lemma invertIdentity_point_point (v : ℝ) :
    refinePoint invertIdentity (refinePoint invertIdentity v) = max 0 (min 1 v) := by
  rw [invertIdentity_point, invertIdentity_point]
  set c := max 0 (min 1 v) with hc
  have h0 : (0 : ℝ) ≤ c := le_max_left 0 _
  have h1 : c ≤ 1 := max_le zero_le_one (min_le_left 1 v)
  rw [min_eq_right (show 1 - c ≤ 1 by linarith),
    max_eq_right (show (0 : ℝ) ≤ 1 - c by linarith)]
  ring

lemma refineLoop_clip_mem (settings : RefinementSettings)
    (hclip : settings.clip = true) (alpha : ℝ) :
    ∀ (raw : List ℝ) (st : ℝ), ∀ v ∈ refineLoop settings alpha st raw,
      0 ≤ v ∧ v ≤ 1 := by
  intro raw
  induction raw with
  | nil => intro st v hv; simp [refineLoop] at hv
  | cons x rest ih =>
    intro st v hv
    rw [refineLoop] at hv
    rcases List.mem_cons.1 hv with h | h
    · subst h
      have hsnd : (refineStep settings alpha st x).2 =
          if settings.invert then
            1 - max 0 (min 1 (st * (1 - alpha) +
              ((if x < settings.gate then 0 else x) + settings.offset)
                * settings.gain * alpha))
          else
            max 0 (min 1 (st * (1 - alpha) +
              ((if x < settings.gate then 0 else x) + settings.offset)
                * settings.gain * alpha)) := by
        simp [refineStep, hclip]
      set y := st * (1 - alpha) +
        ((if x < settings.gate then 0 else x) + settings.offset)
          * settings.gain * alpha with hy
      have hc0 : (0 : ℝ) ≤ max 0 (min 1 y) := le_max_left 0 _
      have hc1 : max 0 (min 1 y) ≤ 1 := max_le zero_le_one (min_le_left 1 y)
      rw [hsnd]
      by_cases hi : settings.invert
      · simp only [hi, if_true]
        constructor <;> linarith
      · simp only [hi, if_false]
        exact ⟨hc0, hc1⟩
    · exact ih _ v h

/-- C6: applying `refineChannel` twice with the identity-plus-invert
settings gives back the pointwise clipped original
`clamp(raw[i], 0, 1)`; and for every settings record with `clip = true`
(invert arbitrary) every output value lies in `[0, 1]`. -/
theorem refineChannel_invert_involution (raw : List ℝ) (bpm fps : ℝ)
    (settings : RefinementSettings) (hclip : settings.clip = true) :
    refineChannel (refineChannel raw invertIdentity bpm fps) invertIdentity bpm fps
        = raw.map (fun v => max 0 (min 1 v)) ∧
    ∀ v ∈ refineChannel raw settings bpm fps, 0 ≤ v ∧ v ≤ 1 := by
  constructor
  · have hmap : ∀ l : List ℝ,
        refineChannel l invertIdentity bpm fps = l.map (refinePoint invertIdentity) := by
      intro l
      show refineLoop invertIdentity (alphaOf invertIdentity.smooth) 0 l = _
      rw [show invertIdentity.smooth = 0 from rfl, alphaOf_zero, refineLoop_alpha_one]
    rw [hmap, hmap, List.map_map]
    refine List.map_congr_left fun v _ => ?_
    exact invertIdentity_point_point v
  · exact refineLoop_clip_mem settings hclip (alphaOf settings.smooth) raw 0

/-- C6 witness: the spec's third example scenario (`raw = [0.2, 0.9]`,
identity settings with invert on) applied twice returns the clipped
input, and a concrete clipped run stays in `[0, 1]`. -/
theorem refineChannel_invert_involution_witness :
    (⟨1, 0, 0, 0, true, false, 0⟩ : RefinementSettings).clip = true ∧
    refineChannel (refineChannel [(0.2 : ℝ), 0.9] invertIdentity 120 30)
        invertIdentity 120 30 = [(0.2 : ℝ), 0.9].map (fun v => max 0 (min 1 v)) ∧
    ∀ v ∈ refineChannel [(0.2 : ℝ), 0.9] ⟨1, 0, 0, 0, true, false, 0⟩ 120 30,
      0 ≤ v ∧ v ≤ 1 :=
  ⟨rfl,
    (refineChannel_invert_involution [(0.2 : ℝ), 0.9] 120 30
      ⟨1, 0, 0, 0, true, false, 0⟩ rfl).1,
    (refineChannel_invert_involution [(0.2 : ℝ), 0.9] 120 30
      ⟨1, 0, 0, 0, true, false, 0⟩ rfl).2⟩

/-! ## C1: sign of the output when clip is off -/

/-- A valid settings record (`gain ∈ [0,5]`, `offset ∈ [-1,1]`,
`smooth, gate ∈ [0,1]`) with `clip = false` and `invert = true`. -/
def c1Settings : RefinementSettings := ⟨5, 1, 0, 0, false, true, 0⟩

/-- C1 counterexample: with `clip = false` and `invert = true` (all
fields within their valid ranges) the input `[1]` refines to `[-9]`,
a strictly negative output value. -/
theorem refineChannel_negative_output :
    refineChannel [(1 : ℝ)] c1Settings 120 30 = [(-9 : ℝ)] ∧
    ¬ (0 : ℝ) ≤ -9 := by
  constructor
  · show refineLoop c1Settings (alphaOf c1Settings.smooth) 0 [(1 : ℝ)] = _
    rw [show c1Settings.smooth = 0 from rfl, alphaOf_zero, refineLoop_alpha_one]
    have h : refinePoint c1Settings 1 = -9 := by
      have hpt : refinePoint c1Settings 1 =
          1 - max 0 (((if (1 : ℝ) < 0 then 0 else 1) + 1) * 5) := rfl
      rw [hpt]
      norm_num
    simp [h]
  · norm_num

lemma refineLoop_nonneg_of_noninvert (settings : RefinementSettings)
    (hinv : settings.invert = false) (alpha : ℝ) :
    ∀ (raw : List ℝ) (st : ℝ), ∀ v ∈ refineLoop settings alpha st raw, 0 ≤ v := by
  intro raw
  induction raw with
  | nil => intro st v hv; simp [refineLoop] at hv
  | cons x rest ih =>
    intro st v hv
    rw [refineLoop] at hv
    rcases List.mem_cons.1 hv with h | h
    · subst h
      simp only [refineStep, hinv, Bool.false_eq_true, if_false]
      by_cases hc : settings.clip
      · simp only [hc, if_true]
        exact le_max_left 0 _
      · simp only [hc, if_false]
        exact le_max_left 0 _
    · exact ih _ v h

/-- C1 (amended): with `clip = false` the output of `refineChannel` is
nonnegative at every position provided `invert = false`; with
`invert = true` the output can be negative (see the counterexample). -/
theorem refineChannel_nonneg_of_noclip (raw : List ℝ)
    (settings : RefinementSettings) (bpm fps : ℝ)
    (hclip : settings.clip = false) (hinv : settings.invert = false) :
    ∀ v ∈ refineChannel raw settings bpm fps, 0 ≤ v :=
  refineLoop_nonneg_of_noninvert settings hinv (alphaOf settings.smooth) raw 0

/-- C1 witness: a concrete run with `clip = false`, `invert = false`. -/
theorem refineChannel_nonneg_of_noclip_witness :
    (⟨1, 0, 0, 0, false, false, 0⟩ : RefinementSettings).clip = false ∧
    (⟨1, 0, 0, 0, false, false, 0⟩ : RefinementSettings).invert = false ∧
    ∀ v ∈ refineChannel [(1 : ℝ) / 2, 3] ⟨1, 0, 0, 0, false, false, 0⟩ 120 30,
      0 ≤ v :=
  ⟨rfl, rfl,
    refineChannel_nonneg_of_noclip [(1 : ℝ) / 2, 3]
      ⟨1, 0, 0, 0, false, false, 0⟩ 120 30 rfl rfl⟩

/-! ## C8: visibility resolver (`visibleChannels`, src/unnamed/part_000) -/

/-- The `visibleChannels` memo of the application shell: with
`anySolo` the disjunction of the solo flags, each channel's `visible`
flag is resolved to `false` when the eye is off, to its own `solo` flag
while any channel is soloed, and to `!mute` otherwise. -/
def visibleChannels (channelStates : List ChannelState) : List ChannelState :=
  let anySolo := channelStates.any (fun ch => ch.solo)
  channelStates.map (fun ch =>
    if !ch.visible then { ch with visible := false }
    else if anySolo then { ch with visible := ch.solo }
    else { ch with visible := !ch.mute })

/-- C8: the resolver computes, for each channel, the effective
visibility `visible && (anySolo ? solo : !mute)`; in particular, while
any channel is soloed, every channel with `solo = false` resolves to
invisible regardless of its mute flag. -/
theorem visibleChannels_resolves (cs : List ChannelState) :
    ((visibleChannels cs).map fun c => c.visible) =
      (cs.map fun ch =>
        ch.visible && (if cs.any (fun c => c.solo) then ch.solo else !ch.mute)) ∧
    (cs.any (fun c => c.solo) = true →
      ∀ c ∈ visibleChannels cs, c.solo = false → c.visible = false) := by
  constructor
  · rw [visibleChannels, List.map_map]
    refine List.map_congr_left fun ch _ => ?_
    by_cases hv : ch.visible
    · by_cases hs : cs.any (fun c => c.solo)
      · simp [hv, hs]
      · simp [hv, hs]
    · simp [hv]
  · intro hany c hc hsolo
    rw [visibleChannels] at hc
    simp only [List.mem_map] at hc
    obtain ⟨ch, _, rfl⟩ := hc
    by_cases hv : ch.visible
    · simp only [hv, Bool.not_true, Bool.false_eq_true, if_false, hany, if_true] at hsolo ⊢
      simpa using hsolo
    · simp [hv]

/-- C8 witness: the spec's fifth example scenario — two visible,
unmuted channels, the second soloed; the resolver marks the non-soloed
one invisible. -/
theorem visibleChannels_resolves_witness :
    ([⟨"a", ⟨1, 0, 0, 0, true, false, 0⟩, [], true, false, false, "c"⟩,
      ⟨"b", ⟨1, 0, 0, 0, true, false, 0⟩, [], true, false, true, "d"⟩] :
        List ChannelState).any (fun c => c.solo) = true ∧
    ∀ c ∈ visibleChannels
        [⟨"a", ⟨1, 0, 0, 0, true, false, 0⟩, [], true, false, false, "c"⟩,
         ⟨"b", ⟨1, 0, 0, 0, true, false, 0⟩, [], true, false, true, "d"⟩],
      c.solo = false → c.visible = false :=
  ⟨rfl,
    (visibleChannels_resolves
      [⟨"a", ⟨1, 0, 0, 0, true, false, 0⟩, [], true, false, false, "c"⟩,
       ⟨"b", ⟨1, 0, 0, 0, true, false, 0⟩, [], true, false, true, "d"⟩]).2 rfl⟩

/-! ## Feature extraction (`analyzeAudioBuffer`, src/services/dsp.ts lines 15-132) -/

/-- The JavaScript remainder `x % 1`: `x` minus `x` truncated toward
zero.  Equals `Int.fract x` for nonnegative `x` and keeps the sign of
`x` when `x` is negative. -/
def jsMod1 (x : ℝ) : ℝ := if 0 ≤ x then Int.fract x else x - ⌈x⌉

/-- The one-pole low-pass coefficient (`lpAlpha = 0.15`). -/
def lpAlpha : ℝ := 0.15

/-- The accumulators of the inner (per-sample) loop of a frame.  The
source also declares a `localMin` helper but never reads or writes it,
so it is omitted. -/
structure FrameAcc where
  lpState : ℝ
  sumSq : ℝ
  sumLow : ℝ
  sumHigh : ℝ
  sumDiff : ℝ
  localMax : ℝ

/-- One iteration of the inner sample loop (lines 53-72 of
`src/services/dsp.ts`): mono mix, stereo difference, low-pass update,
squared-sum accumulation and peak tracking. -/
def sampleStep (chL chR : ℕ → ℝ) (acc : FrameAcc) (i : ℕ) : FrameAcc :=
  let sampleL := chL i
  let sampleR := chR i
  let mono := (sampleL + sampleR) * 0.5
  let diff := |sampleL - sampleR|
  let lpState := acc.lpState + (mono - acc.lpState) * lpAlpha
  let highFreq := mono - lpState
  { lpState := lpState
    sumSq := acc.sumSq + mono * mono
    sumLow := acc.sumLow + lpState * lpState
    sumHigh := acc.sumHigh + highFreq * highFreq
    sumDiff := acc.sumDiff + diff
    localMax := if |mono| > acc.localMax then |mono| else acc.localMax }

/-- The sample indices `[start, stop)` of one frame. -/
def frameIdxs (start stop : ℕ) : List ℕ :=
  (List.range (stop - start)).map (start + ·)

/-- The per-frame feature values. -/
structure FrameFeatures where
  energy : ℝ
  low : ℝ
  mid : ℝ
  high : ℝ
  brightness : ℝ
  width : ℝ
  transient : ℝ

/-- The per-frame feature formulas (lines 74-98 of
`src/services/dsp.ts`): RMS values over the frame's `n` samples with
the calibration constants 4/5/8, the mid residual, the
epsilon-guarded brightness ratio, the normalized width, and the
transient computed from the previous frame's energy (`0` on the first
frame). -/
def frameFeatures (acc : FrameAcc) (n : ℕ) (prevEnergy : ℝ)
    (isFirst : Bool) : FrameFeatures :=
  let rms := Real.sqrt (acc.sumSq / n)
  let rmsLow := Real.sqrt (acc.sumLow / n)
  let rmsHigh := Real.sqrt (acc.sumHigh / n)
  let avgDiff := acc.sumDiff / n
  let energy := min 1 (rms * 4)
  let low := min 1 (rmsLow * 5)
  let high := min 1 (rmsHigh * 8)
  let mid := max 0 (energy - low * 0.4 - high * 0.4)
  let totalSpec := rmsLow + rmsHigh + 0.001
  let brightness := min 1 (rmsHigh / totalSpec * 2)
  let width := min 1 (avgDiff * 4)
  let transient :=
    if isFirst then 0
    else if energy - prevEnergy > 0 then min 1 ((energy - prevEnergy) * 4) else 0
  ⟨energy, low, mid, high, brightness, width, transient⟩

/-- The outer frame loop: `rem` frames remain, `f` is the current frame
index, `lpState` is carried continuously across frame boundaries and
`prevEnergy` is the previous frame's energy (for the transient). -/
def analyzeFramesAux (chL chR : ℕ → ℝ) (len spf : ℕ) :
    ℕ → ℕ → ℝ → ℝ → List FrameFeatures
  | 0, _, _, _ => []
  | rem + 1, f, lpState, prevEnergy =>
    let start := f * spf
    let stop := min (start + spf) len
    let acc := List.foldl (sampleStep chL chR) ⟨lpState, 0, 0, 0, 0, 0⟩
      (frameIdxs start stop)
    let ft := frameFeatures acc (stop - start) prevEnergy (f == 0)
    ft :: analyzeFramesAux chL chR len spf rem (f + 1) acc.lpState ft.energy

/-- `channelDataL = buffer.getChannelData(0)` (out-of-range reads do
not occur in the source's loops). -/
def dspChanL (buf : AudioBuffer) : ℕ → ℝ := fun i => buf.chan0.getD i 0

/-- `channelDataR`: the second channel when the buffer is stereo,
otherwise the first channel again. -/
def dspChanR (buf : AudioBuffer) : ℕ → ℝ :=
  if buf.numberOfChannels > 1 then fun i => buf.chan1.getD i 0 else dspChanL buf

/-- `totalFrames = Math.ceil(duration * fps)`. -/
def totalFrames (buf : AudioBuffer) (config : AnalysisConfig) : ℕ :=
  (⌈buf.duration * config.fps⌉).toNat

/-- `samplesPerFrame = Math.floor(sampleRate / fps)`. -/
def samplesPerFrame (buf : AudioBuffer) (config : AnalysisConfig) : ℕ :=
  (⌊buf.sampleRate / config.fps⌋).toNat

/-- All per-frame features of a buffer, frame 0 first, with the
low-pass state starting at `0`. -/
def featureFrames (buf : AudioBuffer) (config : AnalysisConfig) : List FrameFeatures :=
  analyzeFramesAux (dspChanL buf) (dspChanR buf) buf.chan0.length
    (samplesPerFrame buf config) (totalFrames buf config) 0 0 0

/-- The `energy` feature track. -/
def energyTrack (buf : AudioBuffer) (config : AnalysisConfig) : List ℝ :=
  (featureFrames buf config).map (fun ft => ft.energy)

/-- The `low` feature track. -/
def lowTrack (buf : AudioBuffer) (config : AnalysisConfig) : List ℝ :=
  (featureFrames buf config).map (fun ft => ft.low)

/-- The `mid` feature track. -/
def midTrack (buf : AudioBuffer) (config : AnalysisConfig) : List ℝ :=
  (featureFrames buf config).map (fun ft => ft.mid)

/-- The `high` feature track. -/
def highTrack (buf : AudioBuffer) (config : AnalysisConfig) : List ℝ :=
  (featureFrames buf config).map (fun ft => ft.high)

/-- The `brightness` feature track. -/
def brightnessTrack (buf : AudioBuffer) (config : AnalysisConfig) : List ℝ :=
  (featureFrames buf config).map (fun ft => ft.brightness)

/-- The `width` feature track. -/
def widthTrack (buf : AudioBuffer) (config : AnalysisConfig) : List ℝ :=
  (featureFrames buf config).map (fun ft => ft.width)

/-- The `transient` ("Punch") feature track. -/
def transientTrack (buf : AudioBuffer) (config : AnalysisConfig) : List ℝ :=
  (featureFrames buf config).map (fun ft => ft.transient)

/-- `beats = (f / fps) / secondsPerBeat` with `secondsPerBeat = 60 / bpm`. -/
def beatsAt (config : AnalysisConfig) (f : ℕ) : ℝ :=
  ((f : ℝ) / config.fps) / (60 / config.bpm)

/-- `beatPhase[f] = beats % 1`. -/
def beatPhaseTrack (buf : AudioBuffer) (config : AnalysisConfig) : List ℝ :=
  (List.range (totalFrames buf config)).map fun f => jsMod1 (beatsAt config f)

/-- `barPhase[f] = (beats / timeSignature) % 1`. -/
def barPhaseTrack (buf : AudioBuffer) (config : AnalysisConfig) : List ℝ :=
  (List.range (totalFrames buf config)).map fun f =>
    jsMod1 (beatsAt config f / config.timeSignature)

/-- `analyzeAudioBuffer` from `src/services/dsp.ts`: the seven feature
tracks (with stem-name prefixes for non-master sources) plus the two
phase tracks for the master source only.  The function performs no
validation of `config` and has no failure path: it always returns the
track list. -/
def analyzeAudioBuffer (buf : AudioBuffer) (config : AnalysisConfig)
    (sourceId sourceName : String) : List RawChannelData :=
  let pfx := if sourceId = "master" then "" else sourceName ++ "_"
  [⟨pfx ++ "energy", sourceName ++ " Energy", sourceId, energyTrack buf config, "energy"⟩,
   ⟨pfx ++ "low", sourceName ++ " Low", sourceId, lowTrack buf config, "energy"⟩,
   ⟨pfx ++ "mid", sourceName ++ " Mid", sourceId, midTrack buf config, "energy"⟩,
   ⟨pfx ++ "high", sourceName ++ " High", sourceId, highTrack buf config, "energy"⟩,
   ⟨pfx ++ "transient", sourceName ++ " Punch", sourceId, transientTrack buf config,
     "rhythmic"⟩,
   ⟨pfx ++ "brightness", sourceName ++ " Bright", sourceId, brightnessTrack buf config,
     "creative"⟩,
   ⟨pfx ++ "width", sourceName ++ " Width", sourceId, widthTrack buf config,
     "creative"⟩] ++
  (if sourceId = "master" then
    [⟨"beat_phase", "Beat Phase", sourceId, beatPhaseTrack buf config, "phase"⟩,
     ⟨"bar_phase", "Bar Phase", sourceId, barPhaseTrack buf config, "phase"⟩]
   else [])

/-! ## C3: behaviour on a non-positive frame rate -/

/-- A one-sample mono source at 48 kHz. -/
def c3Buffer : AudioBuffer := ⟨[0], [0], 1, 48000⟩

/-- A configuration with `fps = 0` (non-positive). -/
def c3Config : AnalysisConfig := ⟨0, 120, 4⟩

/-- C3: with `fps = 0` (and a positive sample rate) `analyzeAudioBuffer`
does not fail: it returns the full nine-entry master track list, every
track an empty sequence — there is no `InvalidConfiguration` check
anywhere in the function. -/
theorem analyzeAudioBuffer_no_validation :
    (analyzeAudioBuffer c3Buffer c3Config "master" "mix").length = 9 ∧
    ∀ c ∈ analyzeAudioBuffer c3Buffer c3Config "master" "mix", c.values = [] := by
  have hT : totalFrames c3Buffer c3Config = 0 := by
    have : c3Buffer.duration * c3Config.fps = 0 := by
      simp [AudioBuffer.duration, c3Buffer, c3Config]
    simp [totalFrames, this]
  have hframes : featureFrames c3Buffer c3Config = [] := by
    rw [featureFrames, hT]
    rfl
  refine ⟨?_, ?_⟩
  · simp [analyzeAudioBuffer]
  · intro c hc
    simp only [analyzeAudioBuffer, List.mem_append, List.mem_cons,
      List.not_mem_nil, or_false, if_pos rfl, reduceIte] at hc
    rcases hc with (h | h | h | h | h | h | h) | (h | h)
    all_goals subst h
    all_goals
      simp [energyTrack, lowTrack, midTrack, highTrack, transientTrack,
        brightnessTrack, widthTrack, beatPhaseTrack, barPhaseTrack, hframes, hT]

/-! ## C4: ranges of the produced tracks -/

/-- A two-sample silent mono source at sample rate 1. -/
def c4Buffer : AudioBuffer := ⟨[0, 0], [0, 0], 1, 1⟩

/-- A configuration with positive fps and bpm but a negative
time-signature numerator. -/
def c4Config : AnalysisConfig := ⟨1, 60, -4⟩

/-- The `RawChannelData` default used to index into the produced list. -/
def emptyChannel : RawChannelData := ⟨"", "", "", [], ""⟩

/-- C4 counterexample: with `sampleRate = 1 > 0`, `fps = 1 > 0`,
`bpm = 60 > 0` but `timeSignature = -4`, the produced `bar_phase` track
contains the value `-1/4`, outside `[0, 1)`. -/
theorem analyzeAudioBuffer_barPhase_negative :
    ((analyzeAudioBuffer c4Buffer c4Config "master" "m").getD 8 emptyChannel).id
      = "bar_phase" ∧
    ((analyzeAudioBuffer c4Buffer c4Config "master" "m").getD 8 emptyChannel).values.getD 1 0
      < 0 := by
  have hT : totalFrames c4Buffer c4Config = 2 := by
    have h2 : c4Buffer.duration * c4Config.fps = ((2 : ℤ) : ℝ) := by
      simp [AudioBuffer.duration, c4Buffer, c4Config]
    rw [totalFrames, h2, Int.ceil_intCast]
    rfl
  have hbar : barPhaseTrack c4Buffer c4Config =
      [jsMod1 (beatsAt c4Config 0 / c4Config.timeSignature),
       jsMod1 (beatsAt c4Config 1 / c4Config.timeSignature)] := by
    rw [barPhaseTrack, hT]
    rfl
  have hbeats : beatsAt c4Config 1 / c4Config.timeSignature = -(1 / 4) := by
    simp [beatsAt, c4Config]
    norm_num
  have hmod : jsMod1 (-(1 / 4) : ℝ) = -(1 / 4) := by
    have hneg : ¬ (0 : ℝ) ≤ -(1 / 4) := by norm_num
    have hceil : ⌈(-(1 / 4) : ℝ)⌉ = 0 := by
      rw [Int.ceil_eq_zero_iff]
      constructor <;> norm_num
    rw [jsMod1, if_neg hneg, hceil]
    norm_num
  constructor
  · simp [analyzeAudioBuffer]
  · simp only [analyzeAudioBuffer, if_pos rfl, reduceIte]
    rw [show ∀ a b c d e f g h i : RawChannelData,
        ([a, b, c, d, e, f, g] ++ [h, i]).getD 8 emptyChannel = i from
      fun _ _ _ _ _ _ _ _ _ => rfl]
    rw [hbar]
    simp only [List.getD, List.get?, hbeats, hmod]
    norm_num

lemma sampleStep_sumDiff_nonneg (chL chR : ℕ → ℝ) (acc : FrameAcc) (i : ℕ)
    (h : 0 ≤ acc.sumDiff) : 0 ≤ (sampleStep chL chR acc i).sumDiff := by
  simp only [sampleStep]
  exact add_nonneg h (abs_nonneg _)

lemma foldl_sumDiff_nonneg (chL chR : ℕ → ℝ) :
    ∀ (l : List ℕ) (acc : FrameAcc), 0 ≤ acc.sumDiff →
      0 ≤ (List.foldl (sampleStep chL chR) acc l).sumDiff := by
  intro l
  induction l with
  | nil => intro acc h; exact h
  | cons i rest ih =>
    intro acc h
    exact ih _ (sampleStep_sumDiff_nonneg chL chR acc i h)

lemma frameFeatures_bounds (acc : FrameAcc) (n : ℕ) (pe : ℝ) (b : Bool)
    (hd : 0 ≤ acc.sumDiff) :
    (0 ≤ (frameFeatures acc n pe b).energy ∧ (frameFeatures acc n pe b).energy ≤ 1) ∧
    (0 ≤ (frameFeatures acc n pe b).low ∧ (frameFeatures acc n pe b).low ≤ 1) ∧
    (0 ≤ (frameFeatures acc n pe b).mid ∧ (frameFeatures acc n pe b).mid ≤ 1) ∧
    (0 ≤ (frameFeatures acc n pe b).high ∧ (frameFeatures acc n pe b).high ≤ 1) ∧
    (0 ≤ (frameFeatures acc n pe b).brightness ∧
      (frameFeatures acc n pe b).brightness ≤ 1) ∧
    (0 ≤ (frameFeatures acc n pe b).width ∧ (frameFeatures acc n pe b).width ≤ 1) ∧
    (0 ≤ (frameFeatures acc n pe b).transient ∧
      (frameFeatures acc n pe b).transient ≤ 1) := by
  have hE : 0 ≤ min 1 (Real.sqrt (acc.sumSq / n) * 4) :=
    le_min zero_le_one (by positivity)
  have hL : 0 ≤ min 1 (Real.sqrt (acc.sumLow / n) * 5) :=
    le_min zero_le_one (by positivity)
  have hH : 0 ≤ min 1 (Real.sqrt (acc.sumHigh / n) * 8) :=
    le_min zero_le_one (by positivity)
  have hB : 0 ≤ Real.sqrt (acc.sumHigh / n) /
      (Real.sqrt (acc.sumLow / n) + Real.sqrt (acc.sumHigh / n) + 0.001) * 2 := by
    positivity
  have hW : 0 ≤ acc.sumDiff / n * 4 :=
    mul_nonneg (div_nonneg hd (Nat.cast_nonneg n)) (by norm_num)
  simp only [frameFeatures]
  refine ⟨⟨hE, min_le_left _ _⟩, ⟨hL, min_le_left _ _⟩, ⟨le_max_left _ _, ?_⟩,
    ⟨hH, min_le_left _ _⟩, ⟨le_min zero_le_one hB, min_le_left _ _⟩,
    ⟨le_min zero_le_one hW, min_le_left _ _⟩, ?_⟩
  · have hEle : min 1 (Real.sqrt (acc.sumSq / n) * 4) ≤ 1 := min_le_left _ _
    exact max_le zero_le_one (by linarith [hL, hH])
  · rcases b with _ | _
    · simp only [Bool.false_eq_true, if_false]
      by_cases hδ : min 1 (Real.sqrt (acc.sumSq / ↑n) * 4) - pe > 0
      · simp only [hδ, if_true]
        exact ⟨le_min zero_le_one (by linarith), min_le_left _ _⟩
      · simp only [hδ, if_false]
        exact ⟨le_refl 0, zero_le_one⟩
    · simp only [if_true]
      exact ⟨le_refl 0, zero_le_one⟩

lemma analyzeFramesAux_bounds (chL chR : ℕ → ℝ) (len spf : ℕ) :
    ∀ (rem f : ℕ) (lp pe : ℝ),
      ∀ ft ∈ analyzeFramesAux chL chR len spf rem f lp pe,
        (0 ≤ ft.energy ∧ ft.energy ≤ 1) ∧
        (0 ≤ ft.low ∧ ft.low ≤ 1) ∧
        (0 ≤ ft.mid ∧ ft.mid ≤ 1) ∧
        (0 ≤ ft.high ∧ ft.high ≤ 1) ∧
        (0 ≤ ft.brightness ∧ ft.brightness ≤ 1) ∧
        (0 ≤ ft.width ∧ ft.width ≤ 1) ∧
        (0 ≤ ft.transient ∧ ft.transient ≤ 1) := by
  intro rem
  induction rem with
  | zero => intro f lp pe ft hft; simp [analyzeFramesAux] at hft
  | succ rem ih =>
    intro f lp pe ft hft
    simp only [analyzeFramesAux] at hft
    rcases List.mem_cons.1 hft with h | h
    · subst h
      exact frameFeatures_bounds _ _ _ _
        (foldl_sumDiff_nonneg chL chR _ ⟨lp, 0, 0, 0, 0, 0⟩ (le_refl 0))
    · exact ih _ _ _ ft h

lemma sampleStep_same_sumDiff (chL : ℕ → ℝ) (acc : FrameAcc) (i : ℕ) :
    (sampleStep chL chL acc i).sumDiff = acc.sumDiff := by
  simp [sampleStep]

lemma foldl_same_sumDiff (chL : ℕ → ℝ) :
    ∀ (l : List ℕ) (acc : FrameAcc),
      (List.foldl (sampleStep chL chL) acc l).sumDiff = acc.sumDiff := by
  intro l
  induction l with
  | nil => intro acc; rfl
  | cons i rest ih =>
    intro acc
    rw [List.foldl_cons, ih, sampleStep_same_sumDiff]

lemma frameFeatures_width_zero (acc : FrameAcc) (n : ℕ) (pe : ℝ) (b : Bool)
    (hd : acc.sumDiff = 0) : (frameFeatures acc n pe b).width = 0 := by
  simp only [frameFeatures, hd]
  rw [zero_div, zero_mul, min_eq_right zero_le_one]

lemma analyzeFramesAux_width_zero (chL : ℕ → ℝ) (len spf : ℕ) :
    ∀ (rem f : ℕ) (lp pe : ℝ),
      ∀ ft ∈ analyzeFramesAux chL chL len spf rem f lp pe, ft.width = 0 := by
  intro rem
  induction rem with
  | zero => intro f lp pe ft hft; simp [analyzeFramesAux] at hft
  | succ rem ih =>
    intro f lp pe ft hft
    simp only [analyzeFramesAux] at hft
    rcases List.mem_cons.1 hft with h | h
    · subst h
      exact frameFeatures_width_zero _ _ _ _
        (foldl_same_sumDiff chL _ ⟨lp, 0, 0, 0, 0, 0⟩)
    · exact ih _ _ _ ft h

lemma jsMod1_nonneg_lt_one (x : ℝ) (hx : 0 ≤ x) : 0 ≤ jsMod1 x ∧ jsMod1 x < 1 := by
  rw [jsMod1, if_pos hx]
  exact ⟨Int.fract_nonneg x, Int.fract_lt_one x⟩

lemma beatsAt_nonneg (config : AnalysisConfig) (hfps : 0 < config.fps)
    (hbpm : 0 < config.bpm) (f : ℕ) : 0 ≤ beatsAt config f :=
  div_nonneg (div_nonneg (Nat.cast_nonneg f) hfps.le)
    (div_nonneg (by norm_num) hbpm.le)

lemma featureTrack_mem (buf : AudioBuffer) (config : AnalysisConfig)
    (sel : FrameFeatures → ℝ)
    (hsel : ∀ ft : FrameFeatures,
      ((0 ≤ ft.energy ∧ ft.energy ≤ 1) ∧
       (0 ≤ ft.low ∧ ft.low ≤ 1) ∧
       (0 ≤ ft.mid ∧ ft.mid ≤ 1) ∧
       (0 ≤ ft.high ∧ ft.high ≤ 1) ∧
       (0 ≤ ft.brightness ∧ ft.brightness ≤ 1) ∧
       (0 ≤ ft.width ∧ ft.width ≤ 1) ∧
       (0 ≤ ft.transient ∧ ft.transient ≤ 1)) → 0 ≤ sel ft ∧ sel ft ≤ 1) :
    ∀ v ∈ (featureFrames buf config).map sel, 0 ≤ v ∧ v ≤ 1 := by
  intro v hv
  obtain ⟨ft, hft, rfl⟩ := List.mem_map.1 hv
  exact hsel ft (analyzeFramesAux_bounds _ _ _ _ _ _ _ _ ft hft)

/-- C4 (amended): with `sampleRate > 0`, `fps > 0`, `bpm > 0`, and
additionally `timeSignature > 0` and `fps ≤ sampleRate` (so that every
frame holds at least one sample and no divisor vanishes), every value
of every produced track lies in `[0, 1]`, phase-track values lie in
`[0, 1)`, and the width track is identically `0` for mono sources. -/
theorem analyzeAudioBuffer_ranges (buf : AudioBuffer) (config : AnalysisConfig)
    (sourceId sourceName : String)
    (hsr : 0 < buf.sampleRate) (hfps : 0 < config.fps) (hbpm : 0 < config.bpm)
    (hts : 0 < config.timeSignature) (hspf : config.fps ≤ buf.sampleRate) :
    (∀ c ∈ analyzeAudioBuffer buf config sourceId sourceName, ∀ v ∈ c.values,
      0 ≤ v ∧ v ≤ 1 ∧ (c.type = "phase" → v < 1)) ∧
    (buf.numberOfChannels ≤ 1 → ∀ v ∈ widthTrack buf config, v = 0) := by
  have hbeat : ∀ v ∈ beatPhaseTrack buf config, 0 ≤ v ∧ v < 1 := by
    intro v hv
    rw [beatPhaseTrack] at hv
    obtain ⟨f, _, rfl⟩ := List.mem_map.1 hv
    exact jsMod1_nonneg_lt_one _ (beatsAt_nonneg config hfps hbpm f)
  have hbar : ∀ v ∈ barPhaseTrack buf config, 0 ≤ v ∧ v < 1 := by
    intro v hv
    rw [barPhaseTrack] at hv
    obtain ⟨f, _, rfl⟩ := List.mem_map.1 hv
    exact jsMod1_nonneg_lt_one _
      (div_nonneg (beatsAt_nonneg config hfps hbpm f) hts.le)
  constructor
  · intro c hc v hv
    have hfeat : ∀ sel : FrameFeatures → ℝ,
        (∀ ft : FrameFeatures,
          ((0 ≤ ft.energy ∧ ft.energy ≤ 1) ∧
           (0 ≤ ft.low ∧ ft.low ≤ 1) ∧
           (0 ≤ ft.mid ∧ ft.mid ≤ 1) ∧
           (0 ≤ ft.high ∧ ft.high ≤ 1) ∧
           (0 ≤ ft.brightness ∧ ft.brightness ≤ 1) ∧
           (0 ≤ ft.width ∧ ft.width ≤ 1) ∧
           (0 ≤ ft.transient ∧ ft.transient ≤ 1)) → 0 ≤ sel ft ∧ sel ft ≤ 1) →
        ∀ w ∈ (featureFrames buf config).map sel, 0 ≤ w ∧ w ≤ 1 :=
      fun sel hsel => featureTrack_mem buf config sel hsel
    simp only [analyzeAudioBuffer] at hc
    rcases List.mem_append.1 hc with h7 | hph
    swap
    · by_cases hsid : sourceId = "master"
      · rw [if_pos hsid] at hph
        rcases List.mem_cons.1 hph with h | h
        · subst h
          have hb := hbeat v hv
          exact ⟨hb.1, hb.2.le, fun _ => hb.2⟩
        · rcases List.mem_cons.1 h with h | h
          · subst h
            have hb := hbar v hv
            exact ⟨hb.1, hb.2.le, fun _ => hb.2⟩
          · simp at h
      · rw [if_neg hsid] at hph
        simp at hph
    simp only [List.mem_cons, List.not_mem_nil, or_false] at h7
    rcases h7 with h | h | h | h | h | h | h
    · subst h
      have := hfeat (fun ft => ft.energy) (fun ft hb => hb.1) v hv
      exact ⟨this.1, this.2, by simp⟩
    · subst h
      have := hfeat (fun ft => ft.low) (fun ft hb => hb.2.1) v hv
      exact ⟨this.1, this.2, by simp⟩
    · subst h
      have := hfeat (fun ft => ft.mid) (fun ft hb => hb.2.2.1) v hv
      exact ⟨this.1, this.2, by simp⟩
    · subst h
      have := hfeat (fun ft => ft.high) (fun ft hb => hb.2.2.2.1) v hv
      exact ⟨this.1, this.2, by simp⟩
    · subst h
      have := hfeat (fun ft => ft.transient) (fun ft hb => hb.2.2.2.2.2.2) v hv
      exact ⟨this.1, this.2, by simp⟩
    · subst h
      have := hfeat (fun ft => ft.brightness) (fun ft hb => hb.2.2.2.2.1) v hv
      exact ⟨this.1, this.2, by simp⟩
    · subst h
      have := hfeat (fun ft => ft.width) (fun ft hb => hb.2.2.2.2.2.1) v hv
      exact ⟨this.1, this.2, by simp⟩
  · intro hmono v hv
    have hR : dspChanR buf = dspChanL buf := by
      rw [dspChanR, if_neg]
      omega
    rw [widthTrack, featureFrames, hR] at hv
    obtain ⟨ft, hft, rfl⟩ := List.mem_map.1 hv
    exact analyzeFramesAux_width_zero _ _ _ _ _ _ _ ft hft

/-- A one-sample silent mono source at sample rate 1. -/
def monoBuffer : AudioBuffer := ⟨[0], [0], 1, 1⟩

/-- A well-formed configuration: 1 fps, 60 bpm, 4/4. -/
def basicConfig : AnalysisConfig := ⟨1, 60, 4⟩

/-- C4 witness: the range theorem applied to a concrete silent mono
master source with a well-formed configuration. -/
theorem analyzeAudioBuffer_ranges_witness :
    (0 < monoBuffer.sampleRate ∧ 0 < basicConfig.fps ∧ 0 < basicConfig.bpm ∧
      0 < basicConfig.timeSignature ∧ basicConfig.fps ≤ monoBuffer.sampleRate) ∧
    (∀ c ∈ analyzeAudioBuffer monoBuffer basicConfig "master" "m", ∀ v ∈ c.values,
      0 ≤ v ∧ v ≤ 1 ∧ (c.type = "phase" → v < 1)) ∧
    (monoBuffer.numberOfChannels ≤ 1 → ∀ v ∈ widthTrack monoBuffer basicConfig, v = 0) :=
  ⟨⟨by norm_num [monoBuffer], by norm_num [basicConfig], by norm_num [basicConfig],
      by norm_num [basicConfig], by norm_num [monoBuffer, basicConfig]⟩,
    analyzeAudioBuffer_ranges monoBuffer basicConfig "master" "m"
      (by norm_num [monoBuffer]) (by norm_num [basicConfig])
      (by norm_num [basicConfig]) (by norm_num [basicConfig])
      (by norm_num [monoBuffer, basicConfig])⟩

/-! ## C9: mutation of the decoded source -/

/-- The in-place mix-down at the start of the legacy
`analyzeAudioBuffer` (src/unnamed/part_001 lines 29-35): when the
buffer has more than one channel, channel 0 is overwritten sample by
sample with the average of the two channels; every later statement of
that function only reads.  The `analyzeAudioBuffer` of
`src/services/dsp.ts` contains no write to the buffer at all, so its
effect on the buffer is the identity. -/
def legacyMixDownEffect (buf : AudioBuffer) : AudioBuffer :=
  if buf.numberOfChannels > 1 then
    { buf with chan0 := List.zipWith (fun a b => (a + b) / 2) buf.chan0 buf.chan1 }
  else buf

/-- A one-sample stereo buffer with distinct channel contents. -/
def stereoBuffer : AudioBuffer := ⟨[1], [0], 2, 48000⟩

/-- C9 counterexample: the legacy `analyzeAudioBuffer` variant of the
repository modifies the decoded source — on a stereo buffer with
channel 0 equal to `[1]` it leaves channel 0 equal to `[1/2]`. -/
theorem legacyMixDownEffect_mutates :
    (legacyMixDownEffect stereoBuffer).chan0 = [(1 : ℝ) / 2] ∧
    (legacyMixDownEffect stereoBuffer).chan0 ≠ stereoBuffer.chan0 := by
  have h : (legacyMixDownEffect stereoBuffer).chan0 = [(1 : ℝ) / 2] := by
    rw [legacyMixDownEffect, if_pos (by norm_num [stereoBuffer])]
    show List.zipWith (fun a b => (a + b) / 2) [(1 : ℝ)] [(0 : ℝ)] = [(1 : ℝ) / 2]
    norm_num
  refine ⟨h, ?_⟩
  rw [h, show stereoBuffer.chan0 = [(1 : ℝ)] from rfl]
  intro habs
  rw [List.cons.injEq] at habs
  norm_num at habs

/-- C9 (amended): the buffer-mutation of the legacy variant is confined
to channel 0 of stereo sources: it never touches channel 1 or the
metadata, and on mono sources (`numberOfChannels ≤ 1`) it leaves the
buffer completely unchanged.  The `analyzeAudioBuffer` of
`src/services/dsp.ts` performs no write to the buffer at all. -/
theorem legacyMixDownEffect_scope (buf : AudioBuffer) :
    (legacyMixDownEffect buf).chan1 = buf.chan1 ∧
    (legacyMixDownEffect buf).numberOfChannels = buf.numberOfChannels ∧
    (legacyMixDownEffect buf).sampleRate = buf.sampleRate ∧
    (buf.numberOfChannels ≤ 1 → legacyMixDownEffect buf = buf) := by
  rw [legacyMixDownEffect]
  by_cases h : buf.numberOfChannels > 1
  · rw [if_pos h]
    exact ⟨rfl, rfl, rfl, fun hle => absurd h (by omega)⟩
  · rw [if_neg h]
    exact ⟨rfl, rfl, rfl, fun _ => rfl⟩

/-- C9 witness: on a concrete mono buffer the legacy variant leaves the
buffer unchanged. -/
theorem legacyMixDownEffect_scope_witness :
    monoBuffer.numberOfChannels ≤ 1 ∧ legacyMixDownEffect monoBuffer = monoBuffer :=
  ⟨by norm_num [monoBuffer],
    (legacyMixDownEffect_scope monoBuffer).2.2.2 (by norm_num [monoBuffer])⟩
